import Mathlib

/-!
Verification of the color-theme extraction pipeline in `P_Seperator.py`:
name parsing, paint resolution, tree traversal with last-write-wins
aggregation, the five row projectors and the sorted table writer.
Python floats are modelled as rationals, Python dicts as insertion-ordered
association lists, and raising code as `Except`-valued functions.
-/

/-- Python exception kinds raised by the modelled code. -/
inductive PyErr where
  | keyError
  | typeError
  | valueError
deriving DecidableEq

/-- Python 3 `round` on a rational: round half to even (banker's rounding). -/
def pyRound (q : ℚ) : ℤ :=
  if Int.fract q < 1/2 then ⌊q⌋
  else if 1/2 < Int.fract q then ⌊q⌋ + 1
  else if 2 ∣ ⌊q⌋ then ⌊q⌋ else ⌊q⌋ + 1

/-- Uppercase hexadecimal digit for a value below 16. -/
def hexDigit (n : ℕ) : Char :=
  if n < 10 then Char.ofNat (48 + n) else Char.ofNat (55 + n)

/-- Fuelled big-endian hexadecimal digit list of a natural number. -/
def natHexDigitsAux : ℕ → ℕ → List Char
  | 0, n => [hexDigit (n % 16)]
  | fuel + 1, n =>
    if n < 16 then [hexDigit n]
    else natHexDigitsAux fuel (n / 16) ++ [hexDigit (n % 16)]

/-- Uppercase hexadecimal digit list of a natural number (no padding). -/
def natHexDigits (n : ℕ) : List Char := natHexDigitsAux n n

/-- Python format `f"{i:02X}"`: sign, zero padding to total width 2,
uppercase hexadecimal digits. -/
def fmt02X (i : ℤ) : String :=
  let sign : List Char := if i < 0 then ['-'] else []
  let digits := natHexDigits i.natAbs
  String.mk (sign ++ List.replicate (2 - (sign.length + digits.length)) '0' ++ digits)

/-- A Figma color dict: each channel key may be absent. -/
structure PyColor where
  r : Option ℚ
  g : Option ℚ
  b : Option ℚ
  a : Option ℚ
deriving DecidableEq

/-- Shallow embedding of `color_to_hex`: `0xAARGGBB`-style packed hex string,
channels default to 0 and alpha to 1 when the key is absent. -/
def color_to_hex (c : PyColor) : String :=
  "0x" ++ fmt02X (pyRound (c.a.getD 1 * 255)) ++ fmt02X (pyRound (c.r.getD 0 * 255))
    ++ fmt02X (pyRound (c.g.getD 0 * 255)) ++ fmt02X (pyRound (c.b.getD 0 * 255))

/-- Rounding an integer value returns it unchanged. -/
theorem pyRound_intCast (n : ℤ) : pyRound ((n : ℚ)) = n := by
  unfold pyRound
  rw [Int.fract_intCast, Int.floor_intCast]
  norm_num

example : fmt02X 255 = "FF" := by decide
example : fmt02X 0 = "00" := by decide

/-- A gradient stop dict: its `color` key may be absent. -/
structure GStop where
  color : Option PyColor
deriving DecidableEq

/-- A fill or stroke paint dict: a `type` tag, an optional `color` and a
`gradientStops` list defaulting to empty (`fill.get("gradientStops", [])`). -/
structure PaintRef where
  type : String
  color : Option PyColor
  gradientStops : List GStop
deriving DecidableEq

/-- Shallow embedding of `process_fills`: scan the paint list and return on
the first solid paint or first 2-stop gradient; `fill["color"]` or
`stop["color"]` on a dict without that key raises `KeyError`. -/
def process_fills : List PaintRef → Except PyErr (Option String × Option (String × String))
  | [] => .ok (none, none)
  | f :: rest =>
    if f.type = "SOLID" then
      match f.color with
      | none => .error .keyError
      | some c => .ok (some (color_to_hex c), none)
    else if f.type = "GRADIENT_LINEAR" ∨ f.type = "GRADIENT_RADIAL" then
      if 2 ≤ f.gradientStops.length then
        match f.gradientStops.head?, f.gradientStops.getLast? with
        | some s0, some s1 =>
          match s0.color, s1.color with
          | some c0, some c1 => .ok (none, some (color_to_hex c0, color_to_hex c1))
          | _, _ => .error .keyError
        | _, _ => .error .keyError
      else process_fills rest
    else process_fills rest

/-- Python `s.split(sep, 1)` for a single-character separator, as the part
before the first separator and, when the separator occurs, the part after it. -/
def pySplit1 (sep : Char) : List Char → List Char × Option (List Char)
  | [] => ([], none)
  | c :: cs =>
    if c = sep then ([], some cs)
    else
      let r := pySplit1 sep cs
      (c :: r.1, r.2)

/-- Python `s.split(sep, maxsplit)` worker carrying the reversed current part. -/
def pySplitAux (sep : Char) : ℕ → List Char → List Char → List (List Char)
  | _, acc, [] => [acc.reverse]
  | limit, acc, c :: cs =>
    if c = sep then
      match limit with
      | 0 => [acc.reverse ++ c :: cs]
      | n + 1 => acc.reverse :: pySplitAux sep n [] cs
    else pySplitAux sep limit (c :: acc) cs

/-- Python `s.split(sep, maxsplit)` for a single-character separator. -/
def pySplit (sep : Char) (limit : ℕ) (cs : List Char) : List (List Char) :=
  pySplitAux sep limit [] cs

/-- Shallow embedding of `parse_frame_name`: strip an optional `-localized`
suffix at the first `-`, require the remaining name to start with the prefix,
split it on `_` into at most 3 parts and require at least 2. -/
def parse_frame_name (pfx fname : String) : Option (String × Option String × Option String) :=
  let s1 := pySplit1 '-' fname.toList
  let localized : Option String := s1.2.map String.mk
  if pfx.toList.isPrefixOf s1.1 then
    match pySplit '_' 2 s1.1 with
    | _ :: p1 :: rest => some (String.mk p1, rest.head?.map String.mk, localized)
    | _ => none
  else none

example : parse_frame_name "KBC" "KBC_12_KYT-en" = some ("12", some "KYT", some "en") := by decide
example : parse_frame_name "KBC" "KBC_7" = some ("7", none, none) := by decide
example : parse_frame_name "KBC" "Other_1_X" = none := by decide
example : parse_frame_name "KBC" "KBC" = none := by decide

/-- The per-(theme, slot) record stored by `traverse_children`. -/
structure ThemeRecord where
  localized_name : Option String
  solid_color : Option String
  gradient_colors : Option (String × String)
  s_solid_color : Option String
  s_gradient_colors : Option (String × String)
deriving DecidableEq

/-- Python `d.get(key)` on an insertion-ordered association list. -/
def dictGet? {κ α : Type} [DecidableEq κ] : List (κ × α) → κ → Option α
  | [], _ => none
  | (k, v) :: rest, key => if k = key then some v else dictGet? rest key

/-- Python `d[key] = v`: replace in place when the key exists, else append. -/
def dictUpsert {κ α : Type} [DecidableEq κ] : List (κ × α) → κ → α → List (κ × α)
  | [], key, v => [(key, v)]
  | (k, w) :: rest, key, v =>
    if k = key then (key, v) :: rest else (k, w) :: dictUpsert rest key v

/-- The inner dict of one theme: key slot (None is the root slot) to record. -/
abbrev SlotMap : Type := List (Option String × ThemeRecord)

/-- The aggregated table: theme number to slot map, in insertion order. -/
abbrev ThemeTable : Type := List (String × SlotMap)

/-- Python `themes.setdefault(tn, {})[kt] = rec`, as written in the source:
ensure the outer key exists, then overwrite the slot entry. -/
def tablePut (t : ThemeTable) (tn : String) (kt : Option String) (rec : ThemeRecord) :
    ThemeTable :=
  dictUpsert t tn (dictUpsert ((dictGet? t tn).getD []) kt rec)

/-- Lookup of the record stored for a (theme number, key slot) pair. -/
def tableGet (t : ThemeTable) (tn : String) (kt : Option String) : Option ThemeRecord :=
  (dictGet? t tn).bind (fun m => dictGet? m kt)

/-- A node of the Figma document tree: name, fills, strokes, children, with
the `.get(..., default)` defaults of the source already applied. -/
inductive FNode where
  | mk (name : String) (fills : List PaintRef) (strokes : List PaintRef)
      (children : List FNode)

/-- Name component of a node. -/
def FNode.name : FNode → String
  | .mk n _ _ _ => n

/-- Fill paints of a node. -/
def FNode.fills : FNode → List PaintRef
  | .mk _ f _ _ => f

/-- Stroke paints of a node. -/
def FNode.strokes : FNode → List PaintRef
  | .mk _ _ s _ => s

/-- Children of a node. -/
def FNode.children : FNode → List FNode
  | .mk _ _ _ c => c

/-- One node visit of `traverse_children`: parse the name and, on a match,
resolve fills and strokes and overwrite the table entry. -/
def processNode (pfx : String) (c : FNode) (t : ThemeTable) : Except PyErr ThemeTable :=
  match parse_frame_name pfx c.name with
  | none => .ok t
  | some (tn, kt, ln) =>
    match process_fills c.fills with
    | .error e => .error e
    | .ok fc =>
      match process_fills c.strokes with
      | .error e => .error e
      | .ok sc => .ok (tablePut t tn kt ⟨ln, fc.1, fc.2, sc.1, sc.2⟩)

/-- Shallow embedding of `traverse_children`: document-order depth-first walk,
visiting each node before its children. -/
def traverseList (pfx : String) : List FNode → ThemeTable → Except PyErr ThemeTable
  | [], t => .ok t
  | FNode.mk nm fl st ch :: rest, t =>
    match processNode pfx (FNode.mk nm fl st ch) t with
    | .error e => .error e
    | .ok t1 =>
      match traverseList pfx ch t1 with
      | .error e => .error e
      | .ok t2 => traverseList pfx rest t2

/-- The per-document loop of `extract_themes`, threading one shared table. -/
def docsFold (pfx : String) : List (List FNode) → ThemeTable → Except PyErr ThemeTable
  | [], t => .ok t
  | roots :: rest, t =>
    match traverseList pfx roots t with
    | .error e => .error e
    | .ok t1 => docsFold pfx rest t1

/-- Shallow embedding of `extract_themes`: walk every document's children
starting from an empty table. -/
def extract_themes (pfx : String) (docs : List (List FNode)) : Except PyErr ThemeTable :=
  docsFold pfx docs []

/-- All nodes of a forest in visiting order (document order, parent first). -/
def visitedList : List FNode → List FNode
  | [] => []
  | FNode.mk nm fl st ch :: rest =>
    FNode.mk nm fl st ch :: (visitedList ch ++ visitedList rest)

/-- Whether a node's parsed name yields exactly the given (theme, slot) pair. -/
def matchKeyB (pfx tn : String) (ks : Option String) (c : FNode) : Bool :=
  match parse_frame_name pfx c.name with
  | some (tn', ks', _) => decide (tn' = tn ∧ ks' = ks)
  | none => false

/-- The record a single matching node contributes to the table. -/
def nodeRecE (pfx : String) (c : FNode) : Except PyErr ThemeRecord :=
  match parse_frame_name pfx c.name with
  | none => .error .keyError
  | some (_, _, ln) =>
    match process_fills c.fills with
    | .error e => .error e
    | .ok fc =>
      match process_fills c.strokes with
      | .error e => .error e
      | .ok sc => .ok ⟨ln, fc.1, fc.2, sc.1, sc.2⟩

/-- Last element of a list satisfying the node match, if any. -/
def lastMatch (pfx tn : String) (ks : Option String) : List FNode → Option FNode
  | [] => none
  | c :: rest =>
    match lastMatch pfx tn ks rest with
    | some c' => some c'
    | none => if matchKeyB pfx tn ks c then some c else none

/-- A CSV row: an insertion-ordered dict from column name to a string or
Python `None`. -/
abbrev Row : Type := List (String × Option String)

/-- Python `x or fallback` on a string-or-None value: `None` and the empty
string are falsy. -/
def pyOr (x : Option String) (fallback : String) : String :=
  match x with
  | none => fallback
  | some s => if s = "" then fallback else s

/-- The `localized_name` of a slot, as `keys.get(slot, {}).get(field)`. -/
def slotLocalized (keys : SlotMap) (ks : Option String) : Option String :=
  (dictGet? keys ks).bind (fun r => r.localized_name)

/-- The `solid_color` of a slot, as `keys.get(slot, {}).get("solid_color")`. -/
def slotSolid (keys : SlotMap) (ks : Option String) : Option String :=
  (dictGet? keys ks).bind (fun r => r.solid_color)

/-- One row of `prepare_color_theme`. -/
def colorRow (tn : String) (keys : SlotMap) : Row :=
  [("ID", some ("KBC_" ++ tn)),
   ("ThemeName", some (pyOr (slotLocalized keys none) ("KBC_" ++ tn))),
   ("KeyTextColor", slotSolid keys (some "KYT")),
   ("PredictionBarColor", slotSolid keys (some "PR")),
   ("KeyBackgroundColor", slotSolid keys (some "KYBG")),
   ("KeyboardBackgroundColor", slotSolid keys none)]

/-- Shallow embedding of `prepare_color_theme`. -/
def prepare_color_theme (t : ThemeTable) : List Row :=
  t.map (fun e => colorRow e.1 e.2)

/-- Value of `keys.get(None, {}).get("gradient_colors", (None, None))`:
`none` is Python `None` (stored unresolved value), `some` a tuple. The
`(None, None)` default applies only when the root slot itself is absent. -/
def rootBackground (keys : SlotMap) : Option (Option String × Option String) :=
  match dictGet? keys none with
  | none => some (none, none)
  | some rec => rec.gradient_colors.map (fun p => (some p.1, some p.2))

/-- One row of `prepare_gradient_theme`; subscripting a `None` background
raises `TypeError`. Start and end are the reversed pair. -/
def gradientRowE (tn : String) (keys : SlotMap) : Except PyErr Row :=
  match rootBackground keys with
  | none => .error .typeError
  | some bg =>
    .ok [("ID", some ("KBG_" ++ tn)),
         ("ThemeName", some (pyOr (slotLocalized keys none) ("KBG_" ++ tn))),
         ("KeyTextColor", slotSolid keys (some "KYT")),
         ("KeyBackgroundColor", slotSolid keys (some "KYBG")),
         ("KeyboardBackgroundStartColor", bg.2),
         ("KeyboardBackgroundEndColor", bg.1),
         ("PredictionBarStartColor", slotSolid keys (some "PR")),
         ("PredictionBarEndColor", slotSolid keys (some "PR"))]

/-- One row of `prepare_radial_theme`; same fields as the gradient row but
with the unreversed background pair. -/
def radialRowE (tn : String) (keys : SlotMap) : Except PyErr Row :=
  match rootBackground keys with
  | none => .error .typeError
  | some bg =>
    .ok [("ID", some ("KBR_" ++ tn)),
         ("ThemeName", some (pyOr (slotLocalized keys none) ("KBR_" ++ tn))),
         ("KeyTextColor", slotSolid keys (some "KYT")),
         ("KeyBackgroundColor", slotSolid keys (some "KYBG")),
         ("KeyboardBackgroundStartColor", bg.1),
         ("KeyboardBackgroundEndColor", bg.2),
         ("PredictionBarStartColor", slotSolid keys (some "PR")),
         ("PredictionBarEndColor", slotSolid keys (some "PR"))]

/-- Loop of the Python `prepare` functions: build each row in table order,
aborting on the first raised exception. -/
def mapME {α β : Type} (f : α → Except PyErr β) : List α → Except PyErr (List β)
  | [] => .ok []
  | a :: l =>
    match f a with
    | .error e => .error e
    | .ok b =>
      match mapME f l with
      | .error e => .error e
      | .ok bs => .ok (b :: bs)

/-- Shallow embedding of `prepare_gradient_theme`. -/
def prepare_gradient_theme (t : ThemeTable) : Except PyErr (List Row) :=
  mapME (fun e => gradientRowE e.1 e.2) t

/-- Shallow embedding of `prepare_radial_theme`. -/
def prepare_radial_theme (t : ThemeTable) : Except PyErr (List Row) :=
  mapME (fun e => radialRowE e.1 e.2) t

/-- Value of `keys.get("KYBG", {}).get("s_gradient_colors", (None, None))`
before the truthiness test: `none` is Python `None`, `some` a tuple
(the `(None, None)` default is a truthy tuple). -/
def strokePairRaw (keys : SlotMap) : Option (Option String × Option String) :=
  match dictGet? keys (some "KYBG") with
  | none => some (none, none)
  | some rec => rec.s_gradient_colors.map (fun p => (some p.1, some p.2))

/-- One row of `prepare_border_theme_gradient`: `if not key_stroke` replaces
only a falsy `None` value by the white pair; any tuple is truthy and kept. -/
def borderGradientRow (tn : String) (keys : SlotMap) : Row :=
  let ks : Option String × Option String :=
    match strokePairRaw keys with
    | none => (some "0xFFFFFF", some "0xFFFFFF")
    | some p => p
  [("ID", some ("KBB_" ++ tn)),
   ("ThemeName", some (pyOr (slotLocalized keys none) ("KBB_" ++ tn))),
   ("KeyTextColor", slotSolid keys (some "KYT")),
   ("KeyBackgroundColor", slotSolid keys (some "KYBG")),
   ("KeyboardBackground", slotSolid keys none),
   ("KeyBorderStartColor", ks.1),
   ("KeyBorderEndColor", ks.2),
   ("PredictionBarStartColor", slotSolid keys (some "PR")),
   ("PredictionBarEndColor", slotSolid keys (some "PR"))]

/-- Shallow embedding of `prepare_border_theme_gradient`. -/
def prepare_border_theme_gradient (t : ThemeTable) : List Row :=
  t.map (fun e => borderGradientRow e.1 e.2)

/-- The `s_solid_color` of a slot. -/
def slotStrokeSolid (keys : SlotMap) (ks : Option String) : Option String :=
  (dictGet? keys ks).bind (fun r => r.s_solid_color)

/-- One row of `prepare_border_theme_solid`: border start and end both read
the stroke solid color of slot "KYBG". -/
def borderSolidRow (tn : String) (keys : SlotMap) : Row :=
  [("ID", some ("KBB_" ++ tn)),
   ("ThemeName", some (pyOr (slotLocalized keys none) ("KBB_" ++ tn))),
   ("KeyTextColor", slotSolid keys (some "KYT")),
   ("KeyBackgroundColor", slotSolid keys (some "KYBG")),
   ("KeyboardBackground", slotSolid keys none),
   ("KeyBorderStartColor", slotStrokeSolid keys (some "KYBG")),
   ("KeyBorderEndColor", slotStrokeSolid keys (some "KYBG")),
   ("PredictionBarStartColor", slotSolid keys (some "PR")),
   ("PredictionBarEndColor", slotSolid keys (some "PR"))]

/-- Shallow embedding of `prepare_border_theme_solid`. -/
def prepare_border_theme_solid (t : ThemeTable) : List Row :=
  t.map (fun e => borderSolidRow e.1 e.2)

/-- Sort key extraction `lambda x: x["ID"]`: a missing `ID` key raises
`KeyError`; a `None` value cannot be ordered and raises `TypeError`. -/
def rowID (r : Row) : Except PyErr String :=
  match dictGet? r "ID" with
  | none => .error .keyError
  | some none => .error .typeError
  | some (some s) => .ok s

/-- Comparison of decorated rows by their `ID` string: lexicographic on the
character (code point) sequences, as Python compares `str` values. -/
def keyLE (a b : String × Row) : Prop := a.1.toList ≤ b.1.toList

instance : DecidableRel keyLE := fun a b => by unfold keyLE; infer_instance

deriving instance DecidableEq for Except

instance : IsTotal (String × Row) keyLE := ⟨fun a b => le_total a.1.toList b.1.toList⟩

instance : IsTrans (String × Row) keyLE := ⟨fun _ _ _ h1 h2 => le_trans h1 h2⟩

/-- Python `sorted(data, key=lambda x: x["ID"])`: a stable ascending sort,
modelled by insertion sort (stable sorts agree on their output). -/
def sortPairs (l : List (String × Row)) : List (String × Row) :=
  List.insertionSort keyLE l

/-- Rendering of one CSV cell: Python `None` becomes the empty field. -/
def renderCell : Option String → String
  | none => ""
  | some s => s

/-- `csv.DictWriter` row conversion with `extrasaction="raise"`: a row key
outside the header list raises `ValueError`; a missing header key silently
falls back to the `None` restval. -/
def dictToList (headers : List String) (r : Row) : Except PyErr (List String) :=
  if r.all (fun kv => headers.contains kv.1) then
    .ok (headers.map (fun k => renderCell ((dictGet? r k).join)))
  else .error .valueError

/-- Decoration of a row with its sort key. -/
def decorateRow (r : Row) : Except PyErr (String × Row) :=
  match rowID r with
  | .error e => .error e
  | .ok s => .ok (s, r)

/-- Shallow embedding of `write_csv`, returning the emitted lines: the
header line, then one line per row after the stable sort by `ID`. -/
def write_csv (headers : List String) (data : List Row) : Except PyErr (List (List String)) :=
  match mapME decorateRow data with
  | .error e => .error e
  | .ok dec =>
    match mapME (fun p => dictToList headers p.2) (sortPairs dec) with
    | .error e => .error e
    | .ok body => .ok (headers :: body)

/-- Spec-side: the two hexadecimal digits of a byte value. -/
def hexByte (n : ℕ) : List Char := [hexDigit (n / 16), hexDigit (n % 16)]

/-- Spec-side: numeric value of an uppercase hexadecimal digit. -/
def hexCharVal (ch : Char) : ℕ :=
  if ch.toNat ≤ 57 then ch.toNat - 48 else ch.toNat - 55

/-- Spec-side: decoding of a two-digit hexadecimal chunk. -/
def decodeByte : List Char → ℕ
  | [a, b] => 16 * hexCharVal a + hexCharVal b
  | _ => 0

/-- Spec-side: membership in `[0-9A-F]`. -/
def isHexUpper (ch : Char) : Bool :=
  (decide ('0' ≤ ch) && decide (ch ≤ '9')) || (decide ('A' ≤ ch) && decide (ch ≤ 'F'))

/-- Spec-side: whether a paint resolves, in the words of the claim: solid, or
a linear/radial gradient with at least 2 stops. -/
def resolvesB (f : PaintRef) : Bool :=
  f.type == "SOLID" ||
    ((f.type == "GRADIENT_LINEAR" || f.type == "GRADIENT_RADIAL") &&
      decide (2 ≤ f.gradientStops.length))

/-- Spec-side paint resolution, in the words of the claim: the first
resolvable paint decides the result; a solid one yields its hex color and no
gradient, a gradient one yields no solid and the (first stop, last stop) hex
pair; nothing resolvable means both fields absent. -/
def specResolvePaint (fills : List PaintRef) : Option String × Option (String × String) :=
  match fills.find? resolvesB with
  | none => (none, none)
  | some f =>
    if f.type == "SOLID" then (f.color.map color_to_hex, none)
    else
      (none,
        match f.gradientStops.head?.bind (fun st => st.color),
            f.gradientStops.getLast?.bind (fun st => st.color) with
        | some c0, some c1 => some (color_to_hex c0, color_to_hex c1)
        | _, _ => none)

/-- Well-formedness of a paint dict: a solid paint carries a color and every
gradient stop carries a color. -/
def paintWF (f : PaintRef) : Prop :=
  (f.type = "SOLID" → f.color.isSome) ∧ ∀ st ∈ f.gradientStops, st.color.isSome

instance (f : PaintRef) : Decidable (paintWF f) := by unfold paintWF; infer_instance

/-- Spec-side name parser, in the words of the claim: split once on the
first `-` taking the right part as the localized name, then require the
working name to start with the prefix and split into at least 2 of at most 3
`_`-separated parts. -/
def specParse (pfx fname : String) : Option (String × Option String × Option String) :=
  let cs := fname.toList
  let working := if '-' ∈ cs then cs.takeWhile (fun c => c ≠ '-') else cs
  let localized : Option String :=
    if '-' ∈ cs then some (String.mk ((cs.dropWhile (fun c => c ≠ '-')).tail)) else none
  let parts := pySplit '_' 2 working
  if pfx.toList.isPrefixOf working ∧ 2 ≤ parts.length then
    some (String.mk ((parts.get? 1).getD []), (parts.get? 2).map String.mk, localized)
  else none

theorem pySplit1_fst (sep : Char) (cs : List Char) :
    (pySplit1 sep cs).1 = cs.takeWhile (fun c => c ≠ sep) := by
  induction cs with
  | nil => rfl
  | cons c cs ih =>
    by_cases h : c = sep
    · simp [pySplit1, h, List.takeWhile_cons]
    · simp [pySplit1, h, List.takeWhile_cons, ih]

theorem pySplit1_snd (sep : Char) (cs : List Char) :
    (pySplit1 sep cs).2 =
      if sep ∈ cs then some ((cs.dropWhile (fun c => c ≠ sep)).tail) else none := by
  induction cs with
  | nil => rfl
  | cons c cs ih =>
    by_cases h : c = sep
    · simp [pySplit1, h, List.dropWhile_cons]
    · have h' : ¬ sep = c := fun hh => h hh.symm
      simp [pySplit1, h, List.dropWhile_cons, ih, h']

theorem takeWhile_ne_of_not_mem (sep : Char) (cs : List Char) (h : ¬ sep ∈ cs) :
    cs.takeWhile (fun c => c ≠ sep) = cs := by
  rw [List.takeWhile_eq_self_iff]
  intro a ha
  have hne : a ≠ sep := fun heq => h (heq ▸ ha)
  simp [hne]

theorem parse_branch_eq (pd : List Char) (w : List Char) (loc : Option String) :
    (if pd.isPrefixOf w then
       (match pySplit '_' 2 w with
        | _ :: p1 :: rest => some (String.mk p1, rest.head?.map String.mk, loc)
        | _ => none)
     else none) =
    (if pd.isPrefixOf w ∧ 2 ≤ (pySplit '_' 2 w).length then
       some (String.mk (((pySplit '_' 2 w).get? 1).getD []),
         ((pySplit '_' 2 w).get? 2).map String.mk, loc)
     else none) := by
  by_cases hp : pd.isPrefixOf w
  · simp only [hp, if_true, true_and]
    cases hparts : pySplit '_' 2 w with
    | nil => simp
    | cons p0 ps =>
      cases ps with
      | nil => simp
      | cons p1 rest =>
        have hlen : 2 ≤ (p0 :: p1 :: rest).length := by simp
        rw [if_pos hlen]
        cases rest <;> simp
  · simp [hp]

/-- C5: the name parser splits once on the first `-` into working name and
localized suffix, rejects names whose working part does not start with the
prefix or has fewer than 2 `_`-parts (of at most 3), and otherwise returns
(part 1, optional part 2, localized name); with the three examples of the
spec. -/
theorem parse_frame_name_spec :
    (∀ pfx fname, parse_frame_name pfx fname = specParse pfx fname) ∧
    parse_frame_name "KBC" "KBC_12_KYT-en" = some ("12", some "KYT", some "en") ∧
    parse_frame_name "KBC" "KBC_7" = some ("7", none, none) ∧
    parse_frame_name "KBC" "Other_1_X" = none := by
  refine ⟨fun pfx fname => ?_, by decide, by decide, by decide⟩
  unfold parse_frame_name specParse
  dsimp only
  rw [pySplit1_snd, pySplit1_fst]
  by_cases hmem : '-' ∈ fname.toList
  · rw [if_pos hmem, if_pos hmem, if_pos hmem]
    exact parse_branch_eq pfx.toList (fname.toList.takeWhile (fun c => c ≠ '-'))
      (some (String.mk ((fname.toList.dropWhile (fun c => c ≠ '-')).tail)))
  · rw [if_neg hmem, if_neg hmem, if_neg hmem, takeWhile_ne_of_not_mem _ _ hmem]
    exact parse_branch_eq pfx.toList fname.toList none
example : color_to_hex ⟨none, none, none, none⟩ = "0xFF000000" := by
  unfold color_to_hex
  show "0x" ++ fmt02X (pyRound ((1 : ℚ) * 255)) ++ fmt02X (pyRound ((0 : ℚ) * 255))
      ++ fmt02X (pyRound ((0 : ℚ) * 255)) ++ fmt02X (pyRound ((0 : ℚ) * 255)) = "0xFF000000"
  have e1 : ((1 : ℚ) * 255) = ((255 : ℤ) : ℚ) := by norm_num
  have e0 : ((0 : ℚ) * 255) = ((0 : ℤ) : ℚ) := by norm_num
  rw [e1, e0, pyRound_intCast, pyRound_intCast]
  decide

/-- C10: color resolution treats a missing `r`, `g` or `b` key as 0 and a
missing `a` key as 1, so it is total on dicts lacking channel keys; the
empty color dict resolves to `0xFF000000`. -/
theorem color_to_hex_defaults :
    color_to_hex ⟨none, none, none, none⟩ = "0xFF000000" ∧
    ∀ c : PyColor, color_to_hex c =
      color_to_hex ⟨some (c.r.getD 0), some (c.g.getD 0), some (c.b.getD 0), some (c.a.getD 1)⟩ := by
  constructor
  · unfold color_to_hex
    show "0x" ++ fmt02X (pyRound ((1 : ℚ) * 255)) ++ fmt02X (pyRound ((0 : ℚ) * 255))
        ++ fmt02X (pyRound ((0 : ℚ) * 255)) ++ fmt02X (pyRound ((0 : ℚ) * 255)) = "0xFF000000"
    have e1 : ((1 : ℚ) * 255) = ((255 : ℤ) : ℚ) := by norm_num
    have e0 : ((0 : ℚ) * 255) = ((0 : ℤ) : ℚ) := by norm_num
    rw [e1, e0, pyRound_intCast, pyRound_intCast]
    decide
  · intro c
    rfl

/-- C1: the claim that all five projectors always produce rows without
raising fails; on a table whose root slot is present with an unresolved
(`None`) `gradient_colors` value, the Gradient and Radial projectors raise
`TypeError` by subscripting `None`. -/
theorem gradient_radial_raise_on_unresolved :
    prepare_gradient_theme [("1", [(none, ⟨none, some "0xFF000000", none, none, none⟩)])] =
      .error .typeError ∧
    prepare_radial_theme [("1", [(none, ⟨none, some "0xFF000000", none, none, none⟩)])] =
      .error .typeError := by
  constructor <;> decide

/-- C2 counterexample: on a theme with no "KYBG" slot at all, the
BorderThemeGradient row leaves both border colors empty (`None`), not
`0xFFFFFF` as the claim states. -/
theorem border_default_missing_slot_counterexample :
    prepare_border_theme_gradient [("1", [])] =
      [[("ID", some "KBB_1"), ("ThemeName", some "KBB_1"), ("KeyTextColor", none),
        ("KeyBackgroundColor", none), ("KeyboardBackground", none),
        ("KeyBorderStartColor", none), ("KeyBorderEndColor", none),
        ("PredictionBarStartColor", none), ("PredictionBarEndColor", none)]] ∧
    dictGet? (borderGradientRow "1" []) "KeyBorderStartColor" ≠ some (some "0xFFFFFF") := by
  constructor <;> decide

/-- C2 (amended): the white default applies exactly when the "KYBG" slot is
present with an unresolved (`None`) stroke-gradient value; a stored pair is
emitted as is, and an absent "KYBG" slot yields empty border fields. -/
theorem border_stroke_default (tn : String) (keys : SlotMap) :
    (dictGet? keys (some "KYBG") = none →
      dictGet? (borderGradientRow tn keys) "KeyBorderStartColor" = some none ∧
      dictGet? (borderGradientRow tn keys) "KeyBorderEndColor" = some none) ∧
    (∀ rec : ThemeRecord, dictGet? keys (some "KYBG") = some rec →
      rec.s_gradient_colors = none →
      dictGet? (borderGradientRow tn keys) "KeyBorderStartColor" = some (some "0xFFFFFF") ∧
      dictGet? (borderGradientRow tn keys) "KeyBorderEndColor" = some (some "0xFFFFFF")) ∧
    (∀ (rec : ThemeRecord) (p : String × String), dictGet? keys (some "KYBG") = some rec →
      rec.s_gradient_colors = some p →
      dictGet? (borderGradientRow tn keys) "KeyBorderStartColor" = some (some p.1) ∧
      dictGet? (borderGradientRow tn keys) "KeyBorderEndColor" = some (some p.2)) ∧
    prepare_border_theme_gradient [(tn, keys)] = [borderGradientRow tn keys] := by
  refine ⟨fun h => ?_, fun rec h hs => ?_, fun rec p h hs => ?_, rfl⟩
  · simp [borderGradientRow, strokePairRaw, h, dictGet?]
  · simp [borderGradientRow, strokePairRaw, h, hs, dictGet?]
  · simp [borderGradientRow, strokePairRaw, h, hs, dictGet?]

/-- Witness for C2: on a concrete slot map carrying an unresolved stroke
gradient for "KYBG", both border fields are the white default. -/
theorem border_stroke_default_witness :
    dictGet? (borderGradientRow "1" [(some "KYBG", ⟨none, none, none, none, none⟩)])
        "KeyBorderStartColor" = some (some "0xFFFFFF") ∧
    dictGet? (borderGradientRow "1" [(some "KYBG", ⟨none, none, none, none, none⟩)])
        "KeyBorderEndColor" = some (some "0xFFFFFF") :=
  (border_stroke_default "1" [(some "KYBG", ⟨none, none, none, none, none⟩)]).2.1
    ⟨none, none, none, none, none⟩ (by decide) rfl

/-- C4: paint resolution scans in order and decides on the first solid paint
or first linear/radial gradient with at least 2 stops; solids yield only the
solid hex, gradients only the (first stop, last stop) hex pair; short
gradients and unknown kinds are skipped; an exhausted list yields two absent
results. Stated against the claim-side scanner `specResolvePaint`, for paint
dicts whose referenced color keys are present. -/
theorem specResolvePaint_cons_of_neg (f : PaintRef) (rest : List PaintRef)
    (h : resolvesB f = false) : specResolvePaint (f :: rest) = specResolvePaint rest := by
  unfold specResolvePaint
  rw [List.find?_cons_of_neg _ (by simp [h])]

theorem process_fills_first_match :
    ∀ fills : List PaintRef, (∀ f ∈ fills, paintWF f) →
      process_fills fills = .ok (specResolvePaint fills) := by
  intro fills
  induction fills with
  | nil => intro _; rfl
  | cons f rest ih =>
    intro h
    have hf := h f (List.mem_cons_self f rest)
    have hrest : ∀ g ∈ rest, paintWF g := fun g hg => h g (List.mem_cons_of_mem f hg)
    by_cases hs : f.type = "SOLID"
    · obtain ⟨c, hc⟩ := Option.isSome_iff_exists.mp (hf.1 hs)
      have hres : resolvesB f = true := by simp [resolvesB, hs]
      simp [process_fills, hs, hc, specResolvePaint, List.find?_cons_of_pos _ hres]
    · by_cases hgt : f.type = "GRADIENT_LINEAR" ∨ f.type = "GRADIENT_RADIAL"
      · by_cases hlen : 2 ≤ f.gradientStops.length
        · obtain ⟨s0, tl, hst⟩ : ∃ a l, f.gradientStops = a :: l := by
            cases hstops : f.gradientStops with
            | nil => rw [hstops] at hlen; simp at hlen
            | cons a l => exact ⟨a, l, rfl⟩
          have hhead : f.gradientStops.head? = some s0 := by rw [hst]; rfl
          have hne : f.gradientStops ≠ [] := by rw [hst]; simp
          obtain ⟨s1, hlast⟩ : ∃ s1, f.gradientStops.getLast? = some s1 :=
            ⟨f.gradientStops.getLast hne, List.getLast?_eq_getLast _ hne⟩
          have hs0mem : s0 ∈ f.gradientStops := by rw [hst]; exact List.mem_cons_self _ _
          have hs1mem : s1 ∈ f.gradientStops := by
            obtain ⟨hne', heq⟩ := List.mem_getLast?_eq_getLast (by rw [hlast]; rfl)
            rw [heq]
            exact List.getLast_mem hne'
          obtain ⟨c0, hc0⟩ := Option.isSome_iff_exists.mp (hf.2 s0 hs0mem)
          obtain ⟨c1, hc1⟩ := Option.isSome_iff_exists.mp (hf.2 s1 hs1mem)
          have hres : resolvesB f = true := by
            rcases hgt with hg | hg <;> simp [resolvesB, hg, hlen]
          simp [process_fills, hs, hgt, hlen, hhead, hlast, hc0, hc1, specResolvePaint,
            List.find?_cons_of_pos _ hres]
        · have hres : resolvesB f = false := by
            rcases hgt with hg | hg <;> simp [resolvesB, hg, hs, hlen]
          rw [specResolvePaint_cons_of_neg _ _ hres]
          simp only [process_fills]
          rw [if_neg hs, if_pos hgt, if_neg hlen]
          exact ih hrest
      · have hres : resolvesB f = false := by
          push_neg at hgt
          simp [resolvesB, hs, hgt.1, hgt.2]
        rw [specResolvePaint_cons_of_neg _ _ hres]
        simp only [process_fills]
        rw [if_neg hs, if_neg hgt]
        exact ih hrest

/-- Witness for C4: a three-stop linear gradient is well formed and resolves
to no solid color and the (first, last) stop pair, discarding the middle. -/
theorem process_fills_first_match_witness :
    (∀ f ∈ [PaintRef.mk "GRADIENT_LINEAR" none
        [⟨some ⟨some 1, none, none, none⟩⟩, ⟨some ⟨none, some 1, none, none⟩⟩,
         ⟨some ⟨none, none, some 1, none⟩⟩]], paintWF f) ∧
    process_fills [PaintRef.mk "GRADIENT_LINEAR" none
        [⟨some ⟨some 1, none, none, none⟩⟩, ⟨some ⟨none, some 1, none, none⟩⟩,
         ⟨some ⟨none, none, some 1, none⟩⟩]] =
      .ok (specResolvePaint [PaintRef.mk "GRADIENT_LINEAR" none
        [⟨some ⟨some 1, none, none, none⟩⟩, ⟨some ⟨none, some 1, none, none⟩⟩,
         ⟨some ⟨none, none, some 1, none⟩⟩]]) :=
  ⟨by decide, process_fills_first_match _ (by decide)⟩

theorem mapME_get {α β : Type} (f : α → Except PyErr β) :
    ∀ (l : List α) (l' : List β), mapME f l = .ok l' →
      ∀ (i : ℕ) (x : α), l.get? i = some x → ∃ y, l'.get? i = some y ∧ f x = .ok y := by
  intro l
  induction l with
  | nil => intro l' _ i x hx; simp at hx
  | cons a l ih =>
    intro l' hm i x hx
    simp only [mapME] at hm
    cases hfa : f a with
    | error e => rw [hfa] at hm; exact absurd hm (by simp)
    | ok b =>
      rw [hfa] at hm
      cases hml : mapME f l with
      | error e => rw [hml] at hm; exact absurd hm (by simp)
      | ok bs =>
        rw [hml] at hm
        cases hm
        cases i with
        | zero =>
          simp only [List.get?] at hx
          cases hx
          exact ⟨b, rfl, hfa⟩
        | succ j => exact ih bs hml j x hx

/-- C8: whenever the root slot of a theme holds a resolved gradient pair
(g0, g1), the Gradient projector writes the reversed pair (start = g1,
end = g0) while the Radial projector writes the unreversed pair, and the two
rows agree on every field other than ID, ThemeName and the two background
columns. -/
theorem gradient_reversed_radial_not (t : ThemeTable) (i : ℕ) (tn : String) (keys : SlotMap)
    (grows rrows : List Row) (rec : ThemeRecord) (g0 g1 : String)
    (ht : t.get? i = some (tn, keys))
    (hg : prepare_gradient_theme t = .ok grows)
    (hr : prepare_radial_theme t = .ok rrows)
    (hroot : dictGet? keys none = some rec)
    (hpair : rec.gradient_colors = some (g0, g1)) :
    ∃ grow rrow, grows.get? i = some grow ∧ rrows.get? i = some rrow ∧
      dictGet? grow "KeyboardBackgroundStartColor" = some (some g1) ∧
      dictGet? grow "KeyboardBackgroundEndColor" = some (some g0) ∧
      dictGet? rrow "KeyboardBackgroundStartColor" = some (some g0) ∧
      dictGet? rrow "KeyboardBackgroundEndColor" = some (some g1) ∧
      ∀ k, k ≠ "ID" → k ≠ "ThemeName" → k ≠ "KeyboardBackgroundStartColor" →
        k ≠ "KeyboardBackgroundEndColor" → dictGet? grow k = dictGet? rrow k := by
  have hbg : rootBackground keys = some (some g0, some g1) := by
    simp [rootBackground, hroot, hpair]
  obtain ⟨grow, hgi, hgrow⟩ := mapME_get _ t grows hg i (tn, keys) ht
  obtain ⟨rrow, hri, hrrow⟩ := mapME_get _ t rrows hr i (tn, keys) ht
  simp only [gradientRowE, hbg, Except.ok.injEq] at hgrow
  simp only [radialRowE, hbg, Except.ok.injEq] at hrrow
  subst hgrow
  subst hrrow
  refine ⟨_, _, hgi, hri, by simp [dictGet?], by simp [dictGet?], by simp [dictGet?],
    by simp [dictGet?], ?_⟩
  intro k h1 h2 h3 h4
  simp only [dictGet?]
  split_ifs <;> simp_all

/-- Witness for C8: a concrete table whose root slot resolves to the pair
("0xA", "0xB") produces a reversed Gradient row and an unreversed Radial
row agreeing elsewhere. -/
theorem gradient_reversed_radial_not_witness :
    ∃ grow rrow,
      ([[("ID", some "KBG_1"), ("ThemeName", some "KBG_1"), ("KeyTextColor", none),
         ("KeyBackgroundColor", none), ("KeyboardBackgroundStartColor", some "0xB"),
         ("KeyboardBackgroundEndColor", some "0xA"), ("PredictionBarStartColor", none),
         ("PredictionBarEndColor", none)]] : List Row).get? 0 = some grow ∧
      ([[("ID", some "KBR_1"), ("ThemeName", some "KBR_1"), ("KeyTextColor", none),
         ("KeyBackgroundColor", none), ("KeyboardBackgroundStartColor", some "0xA"),
         ("KeyboardBackgroundEndColor", some "0xB"), ("PredictionBarStartColor", none),
         ("PredictionBarEndColor", none)]] : List Row).get? 0 = some rrow ∧
      dictGet? grow "KeyboardBackgroundStartColor" = some (some "0xB") ∧
      dictGet? grow "KeyboardBackgroundEndColor" = some (some "0xA") ∧
      dictGet? rrow "KeyboardBackgroundStartColor" = some (some "0xA") ∧
      dictGet? rrow "KeyboardBackgroundEndColor" = some (some "0xB") ∧
      ∀ k, k ≠ "ID" → k ≠ "ThemeName" → k ≠ "KeyboardBackgroundStartColor" →
        k ≠ "KeyboardBackgroundEndColor" → dictGet? grow k = dictGet? rrow k :=
  gradient_reversed_radial_not [("1", [(none, ⟨none, none, some ("0xA", "0xB"), none, none⟩)])]
    0 "1" [(none, ⟨none, none, some ("0xA", "0xB"), none, none⟩)] _ _
    ⟨none, none, some ("0xA", "0xB"), none, none⟩ "0xA" "0xB"
    (by decide) (by decide) (by decide) (by decide) rfl

theorem pyRound_bounds (q : ℚ) (h0 : 0 ≤ q) (h1 : q ≤ 255) :
    0 ≤ pyRound q ∧ pyRound q ≤ 255 := by
  have hf0 : 0 ≤ ⌊q⌋ := Int.floor_nonneg.mpr h0
  have hf1 : ⌊q⌋ ≤ 255 := by
    have h255 : ⌊q⌋ ≤ ⌊(255 : ℚ)⌋ := Int.floor_le_floor h1
    have : ⌊(255 : ℚ)⌋ = 255 := by norm_num
    omega
  have hplus : ¬ Int.fract q < 1/2 → ⌊q⌋ + 1 ≤ 255 := by
    intro hA
    rcases lt_or_eq_of_le hf1 with hlt | heq
    · omega
    · exfalso
      have hle : ((255 : ℤ) : ℚ) ≤ q := by rw [← heq]; exact Int.floor_le q
      have hq : q = 255 := le_antisymm h1 (by exact_mod_cast hle)
      rw [hq] at hA
      apply hA
      rw [show (255 : ℚ) = ((255 : ℤ) : ℚ) by norm_cast, Int.fract_intCast]
      norm_num
  unfold pyRound
  split_ifs with hA hB hC
  · exact ⟨hf0, hf1⟩
  · exact ⟨by omega, hplus hA⟩
  · exact ⟨by omega, hf1⟩
  · exact ⟨by omega, hplus hA⟩

theorem natHexDigitsAux_lt16 (fuel n : ℕ) (h : n < 16) :
    natHexDigitsAux fuel n = [hexDigit n] := by
  cases fuel with
  | zero => simp [natHexDigitsAux, Nat.mod_eq_of_lt h]
  | succ m => simp [natHexDigitsAux, h]

theorem natHexDigits_lt16 (n : ℕ) (h : n < 16) : natHexDigits n = [hexDigit n] :=
  natHexDigitsAux_lt16 n n h

theorem natHexDigits_two (n : ℕ) (h16 : 16 ≤ n) (h255 : n ≤ 255) :
    natHexDigits n = [hexDigit (n / 16), hexDigit (n % 16)] := by
  unfold natHexDigits
  obtain ⟨m, rfl⟩ : ∃ m, n = m + 1 := ⟨n - 1, by omega⟩
  simp only [natHexDigitsAux, if_neg (by omega : ¬ m + 1 < 16)]
  rw [natHexDigitsAux_lt16 m ((m + 1) / 16) (by omega)]
  rfl

theorem hexDigit_facts : ∀ d, d < 16 → isHexUpper (hexDigit d) = true ∧
    hexCharVal (hexDigit d) = d := by decide

theorem fmt02X_eq_hexByte (i : ℤ) (h0 : 0 ≤ i) (h255 : i ≤ 255) :
    fmt02X i = String.mk (hexByte i.toNat) := by
  have hneg : ¬ i < 0 := by omega
  have hnat : i.natAbs = i.toNat := by omega
  unfold fmt02X
  dsimp only
  rw [if_neg hneg, hnat]
  have hn255 : i.toNat ≤ 255 := by omega
  by_cases hlt : i.toNat < 16
  · rw [natHexDigits_lt16 _ hlt]
    have hz : hexDigit 0 = '0' := by decide
    simp [hexByte, Nat.div_eq_of_lt hlt, Nat.mod_eq_of_lt hlt, hz, List.replicate]
  · rw [natHexDigits_two _ (by omega) hn255]
    simp [hexByte, List.replicate]

theorem decodeByte_hexByte (n : ℕ) (h : n ≤ 255) : decodeByte (hexByte n) = n := by
  have h1 : n / 16 < 16 := by omega
  have h2 : n % 16 < 16 := by omega
  simp only [hexByte, decodeByte]
  rw [(hexDigit_facts _ h1).2, (hexDigit_facts _ h2).2]
  omega

theorem smk_append (a b : List Char) : String.mk a ++ String.mk b = String.mk (a ++ b) := rfl

theorem smk_length (l : List Char) : (String.mk l).length = l.length := rfl

theorem hexByte_chars (n : ℕ) (h : n ≤ 255) : ∀ ch ∈ hexByte n, isHexUpper ch = true := by
  intro ch hch
  simp only [hexByte, List.mem_cons, List.not_mem_nil, or_false] at hch
  rcases hch with h1 | h1 <;> (rw [h1]; exact (hexDigit_facts _ (by omega)).1)

/-- C6: on channels in [0,1] (alpha possibly absent, defaulting to 1) the
color resolver emits `0x` followed by exactly 8 uppercase hexadecimal
digits — alpha, red, green, blue, each the rounded byte value — a string of
length 10, and decoding each 2-digit chunk recovers exactly the rounded
channel values. -/
theorem color_to_hex_canonical (c : PyColor) (r g b : ℚ)
    (hcr : c.r = some r) (hcg : c.g = some g) (hcb : c.b = some b)
    (hr0 : 0 ≤ r) (hr1 : r ≤ 1) (hg0 : 0 ≤ g) (hg1 : g ≤ 1) (hb0 : 0 ≤ b) (hb1 : b ≤ 1)
    (ha : c.a = none ∨ ∃ a, c.a = some a ∧ 0 ≤ a ∧ a ≤ 1) :
    ∀ A R G B : ℕ,
      A = (pyRound (c.a.getD 1 * 255)).toNat →
      R = (pyRound (r * 255)).toNat →
      G = (pyRound (g * 255)).toNat →
      B = (pyRound (b * 255)).toNat →
      A ≤ 255 ∧ R ≤ 255 ∧ G ≤ 255 ∧ B ≤ 255 ∧
      color_to_hex c =
        String.mk ('0' :: 'x' :: (hexByte A ++ hexByte R ++ hexByte G ++ hexByte B)) ∧
      (color_to_hex c).length = 10 ∧
      (∀ ch ∈ hexByte A ++ hexByte R ++ hexByte G ++ hexByte B, isHexUpper ch = true) ∧
      decodeByte (hexByte A) = A ∧ decodeByte (hexByte R) = R ∧
      decodeByte (hexByte G) = G ∧ decodeByte (hexByte B) = B := by
  intro A R G B hA hR hG hB
  have haq : 0 ≤ c.a.getD 1 ∧ c.a.getD 1 ≤ 1 := by
    rcases ha with h | ⟨a, h, h0, h1⟩
    · rw [h]; norm_num
    · rw [h]; exact ⟨h0, h1⟩
  have bnd : ∀ q : ℚ, 0 ≤ q → q ≤ 1 → 0 ≤ pyRound (q * 255) ∧ pyRound (q * 255) ≤ 255 := by
    intro q h0 h1
    refine pyRound_bounds _ (mul_nonneg h0 (by norm_num)) ?_
    calc q * 255 ≤ 1 * 255 := mul_le_mul_of_nonneg_right h1 (by norm_num)
    _ = 255 := by norm_num
  have bA := bnd _ haq.1 haq.2
  have bR := bnd _ hr0 hr1
  have bG := bnd _ hg0 hg1
  have bB := bnd _ hb0 hb1
  have hA255 : A ≤ 255 := by omega
  have hR255 : R ≤ 255 := by omega
  have hG255 : G ≤ 255 := by omega
  have hB255 : B ≤ 255 := by omega
  have hmain : color_to_hex c =
      String.mk ('0' :: 'x' :: (hexByte A ++ hexByte R ++ hexByte G ++ hexByte B)) := by
    unfold color_to_hex
    rw [hcr, hcg, hcb]
    simp only [Option.getD_some]
    rw [fmt02X_eq_hexByte _ bA.1 bA.2, fmt02X_eq_hexByte _ bR.1 bR.2,
      fmt02X_eq_hexByte _ bG.1 bG.2, fmt02X_eq_hexByte _ bB.1 bB.2, ← hA, ← hR, ← hG, ← hB]
    rw [show ("0x" : String) = String.mk ['0', 'x'] from rfl]
    rw [smk_append, smk_append, smk_append, smk_append]
    simp [List.append_assoc]
  refine ⟨hA255, hR255, hG255, hB255, hmain, ?_, ?_, decodeByte_hexByte _ hA255,
    decodeByte_hexByte _ hR255, decodeByte_hexByte _ hG255, decodeByte_hexByte _ hB255⟩
  · rw [hmain, smk_length]
    simp [hexByte]
  · intro ch hch
    rcases List.mem_append.mp hch with h | h
    · rcases List.mem_append.mp h with h' | h'
      · rcases List.mem_append.mp h' with h2 | h2
        · exact hexByte_chars _ hA255 _ h2
        · exact hexByte_chars _ hR255 _ h2
      · exact hexByte_chars _ hG255 _ h'
    · exact hexByte_chars _ hB255 _ h

/-- Witness for C6: the color with channels (0,0,0) and absent alpha yields
bytes (255,0,0,0), the packed 10-character string and exact decoding. -/
theorem color_to_hex_canonical_witness :
    (255 : ℕ) ≤ 255 ∧ (0 : ℕ) ≤ 255 ∧ (0 : ℕ) ≤ 255 ∧ (0 : ℕ) ≤ 255 ∧
    color_to_hex ⟨some 0, some 0, some 0, none⟩ =
      String.mk ('0' :: 'x' :: (hexByte 255 ++ hexByte 0 ++ hexByte 0 ++ hexByte 0)) ∧
    (color_to_hex ⟨some 0, some 0, some 0, none⟩).length = 10 ∧
    decodeByte (hexByte 255) = 255 ∧ decodeByte (hexByte 0) = 0 ∧
    decodeByte (hexByte 0) = 0 ∧ decodeByte (hexByte 0) = 0 := by
  have h := color_to_hex_canonical ⟨some 0, some 0, some 0, none⟩ 0 0 0 rfl rfl rfl
    (le_refl 0) (by norm_num) (le_refl 0) (by norm_num) (le_refl 0) (by norm_num)
    (Or.inl rfl) 255 0 0 0
    (by show (255 : ℕ) = (pyRound ((1 : ℚ) * 255)).toNat
        rw [show ((1 : ℚ) * 255) = ((255 : ℤ) : ℚ) by norm_num, pyRound_intCast]
        rfl)
    (by show (0 : ℕ) = (pyRound ((0 : ℚ) * 255)).toNat
        rw [show ((0 : ℚ) * 255) = ((0 : ℤ) : ℚ) by norm_num, pyRound_intCast]
        rfl)
    (by show (0 : ℕ) = (pyRound ((0 : ℚ) * 255)).toNat
        rw [show ((0 : ℚ) * 255) = ((0 : ℤ) : ℚ) by norm_num, pyRound_intCast]
        rfl)
    (by show (0 : ℕ) = (pyRound ((0 : ℚ) * 255)).toNat
        rw [show ((0 : ℚ) * 255) = ((0 : ℤ) : ℚ) by norm_num, pyRound_intCast]
        rfl)
  exact ⟨h.1, h.2.1, h.2.2.1, h.2.2.2.1, h.2.2.2.2.1, h.2.2.2.2.2.1, h.2.2.2.2.2.2.2⟩

theorem mapME_error_of_mem {α β : Type} (f : α → Except PyErr β) (l : List α) (x : α)
    (e : PyErr) (hx : x ∈ l) (hfx : f x = .error e) : ∃ e', mapME f l = .error e' := by
  induction l with
  | nil => cases hx
  | cons a l ih =>
    cases hfa : f a with
    | error e2 => exact ⟨e2, by simp [mapME, hfa]⟩
    | ok b =>
      rcases List.mem_cons.mp hx with rfl | hmem
      · rw [hfa] at hfx; cases hfx
      · obtain ⟨e', he'⟩ := ih hmem
        exact ⟨e', by simp [mapME, hfa, he']⟩

theorem mapME_ok_of_all {α β : Type} (f : α → Except PyErr β) (l : List α)
    (h : ∀ x ∈ l, ∃ y, f x = .ok y) : ∃ l', mapME f l = .ok l' := by
  induction l with
  | nil => exact ⟨[], rfl⟩
  | cons a l ih =>
    obtain ⟨y, hy⟩ := h a (List.mem_cons_self a l)
    obtain ⟨l', hl'⟩ := ih (fun x hx => h x (List.mem_cons_of_mem a hx))
    exact ⟨y :: l', by simp [mapME, hy, hl']⟩

theorem mapME_ok_map {α β : Type} (f : α → Except PyErr β) (g : α → β)
    (hfg : ∀ x y, f x = .ok y → y = g x) :
    ∀ (l : List α) (l' : List β), mapME f l = .ok l' → l' = l.map g := by
  intro l
  induction l with
  | nil => intro l' h; cases h; rfl
  | cons a l ih =>
    intro l' h
    cases hfa : f a with
    | error e => simp [mapME, hfa] at h
    | ok b =>
      cases hml : mapME f l with
      | error e => simp [mapME, hfa, hml] at h
      | ok bs =>
        simp only [mapME, hfa, hml] at h
        cases h
        rw [List.map_cons, ← hfg a b hfa, ih bs hml]

theorem mapME_decorate_facts : ∀ (data : List Row) (dec : List (String × Row)),
    mapME decorateRow data = .ok dec →
    (∀ r ∈ data, ∃ s, (s, r) ∈ dec) ∧ (∀ p ∈ dec, p.2 ∈ data ∧ rowID p.2 = .ok p.1) := by
  intro data
  induction data with
  | nil =>
    intro dec h
    cases h
    exact ⟨fun r hr => absurd hr (List.not_mem_nil r), fun p hp => absurd hp (List.not_mem_nil p)⟩
  | cons a l ih =>
    intro dec h
    cases hid : rowID a with
    | error e => simp [mapME, decorateRow, hid] at h
    | ok s =>
      cases hml : mapME decorateRow l with
      | error e => simp [mapME, decorateRow, hid, hml] at h
      | ok bs =>
        simp only [mapME, decorateRow, hid, hml] at h
        cases h
        obtain ⟨ih1, ih2⟩ := ih bs hml
        constructor
        · intro r hr
          rcases List.mem_cons.mp hr with rfl | hm
          · exact ⟨s, List.mem_cons_self _ _⟩
          · obtain ⟨s', hs'⟩ := ih1 r hm
            exact ⟨s', List.mem_cons_of_mem _ hs'⟩
        · intro p hp
          rcases List.mem_cons.mp hp with rfl | hm
          · exact ⟨List.mem_cons_self _ _, hid⟩
          · obtain ⟨h1, h2⟩ := ih2 p hm
            exact ⟨List.mem_cons_of_mem _ h1, h2⟩

theorem filter_orderedInsert_key (s : String) (x : String × Row) :
    ∀ l : List (String × Row),
      (List.orderedInsert keyLE x l).filter (fun p => p.1 == s) =
        if x.1 == s then x :: l.filter (fun p => p.1 == s)
        else l.filter (fun p => p.1 == s) := by
  intro l
  induction l with
  | nil => by_cases hpx : (x.1 == s) <;> simp [List.orderedInsert, List.filter, hpx]
  | cons y ys ih =>
    simp only [List.orderedInsert]
    by_cases hle : keyLE x y
    · rw [if_pos hle]
      by_cases hpx : (x.1 == s) <;> simp [hpx, List.filter_cons]
    · rw [if_neg hle]
      simp only [List.filter_cons]
      by_cases hpy : (y.1 == s)
      · simp only [hpy, if_true]
        rw [ih]
        by_cases hpx : (x.1 == s)
        · exfalso
          apply hle
          have hx : x.1 = s := by simpa using hpx
          have hy : y.1 = s := by simpa using hpy
          exact le_of_eq (by rw [hx, hy])
        · simp [hpx]
      · simp only [hpy]
        rw [ih]
        by_cases hpx : (x.1 == s) <;> simp [hpx]

theorem filter_sortPairs (s : String) :
    ∀ l : List (String × Row), (sortPairs l).filter (fun p => p.1 == s) =
      l.filter (fun p => p.1 == s) := by
  intro l
  induction l with
  | nil => rfl
  | cons x xs ih =>
    unfold sortPairs at ih ⊢
    show (List.orderedInsert keyLE x (List.insertionSort keyLE xs)).filter _ = _
    rw [filter_orderedInsert_key]
    by_cases hpx : (x.1 == s) <;> simp [hpx, List.filter_cons, ih]

/-- C9: a successful table write emits exactly one header line followed by
the decorated rows sorted ascending by the `ID` string (lexicographic on
code points), the sort stable on equal IDs (filtering by any ID value
preserves the original order) and a permutation of the input, each emitted
line being the row's values in exactly the given header order. -/
theorem write_csv_sorted_stable (headers : List String) (data : List Row)
    (out : List (List String)) (h : write_csv headers data = .ok out) :
    ∃ dec : List (String × Row),
      mapME decorateRow data = .ok dec ∧
      out = headers :: (sortPairs dec).map
        (fun p => headers.map (fun k => renderCell ((dictGet? p.2 k).join))) ∧
      List.Sorted keyLE (sortPairs dec) ∧
      List.Perm (sortPairs dec) dec ∧
      (∀ s : String, (sortPairs dec).filter (fun p => p.1 == s) =
        dec.filter (fun p => p.1 == s)) ∧
      (∀ p ∈ dec, p.2 ∈ data ∧ rowID p.2 = .ok p.1) := by
  cases hdec : mapME decorateRow data with
  | error e => simp [write_csv, hdec] at h
  | ok dec =>
    cases hbody : mapME (fun p => dictToList headers p.2) (sortPairs dec) with
    | error e => simp [write_csv, hdec, hbody] at h
    | ok body =>
      have hout : out = headers :: body := by
        simp only [write_csv, hdec, hbody] at h
        exact (Except.ok.inj h).symm
      have hbody2 : body = (sortPairs dec).map
          (fun p => headers.map (fun k => renderCell ((dictGet? p.2 k).join))) := by
        apply mapME_ok_map _ _ ?_ _ _ hbody
        intro x y hxy
        unfold dictToList at hxy
        by_cases hall : x.2.all (fun kv => headers.contains kv.1)
        · rw [if_pos hall] at hxy
          exact (Except.ok.inj hxy).symm
        · rw [if_neg hall] at hxy
          cases hxy
      refine ⟨dec, rfl, by rw [hout, hbody2], ?_, ?_, fun s => filter_sortPairs s dec,
        (mapME_decorate_facts data dec hdec).2⟩
      · unfold sortPairs
        exact List.sorted_insertionSort keyLE dec
      · unfold sortPairs
        exact List.perm_insertionSort keyLE dec

/-- Witness for C9: two rows with IDs "KBC_2" and "KBC_10" decorate
successfully, and the sorted output is a sorted permutation placing
"KBC_10" before "KBC_2". -/
theorem write_csv_sorted_stable_witness :
    mapME decorateRow [[("ID", some "KBC_2")], [("ID", some "KBC_10")]] =
      .ok [("KBC_2", [("ID", some "KBC_2")]), ("KBC_10", [("ID", some "KBC_10")])] ∧
    List.Sorted keyLE
      (sortPairs [("KBC_2", [("ID", some "KBC_2")]), ("KBC_10", [("ID", some "KBC_10")])]) ∧
    List.Perm
      (sortPairs [("KBC_2", [("ID", some "KBC_2")]), ("KBC_10", [("ID", some "KBC_10")])])
      [("KBC_2", [("ID", some "KBC_2")]), ("KBC_10", [("ID", some "KBC_10")])] := by
  obtain ⟨dec, h1, h2, h3, h4, h5, h6⟩ :=
    write_csv_sorted_stable ["ID"] [[("ID", some "KBC_2")], [("ID", some "KBC_10")]]
      [["ID"], ["KBC_10"], ["KBC_2"]] (by decide)
  have hdec : dec = [("KBC_2", [("ID", some "KBC_2")]), ("KBC_10", [("ID", some "KBC_10")])] :=
    Except.ok.inj (h1.symm.trans (by decide))
  subst hdec
  exact ⟨h1, h3, h4⟩

/-- C3 (amended): a row carrying a key outside the header list makes the
write fail (the `DictWriter` `ValueError`), while a row merely missing a
header key is not an error: the writer emits an empty value for that
column. -/
theorem write_csv_key_policy :
    (∀ (headers : List String) (data : List Row) (r : Row) (k : String) (v : Option String),
      r ∈ data → (k, v) ∈ r → headers.contains k = false →
      ∃ e, write_csv headers data = .error e) ∧
    (∀ (headers : List String) (data : List Row),
      (∀ r ∈ data, ∃ s, dictGet? r "ID" = some (some s)) →
      (∀ r ∈ data, ∀ kv ∈ r, headers.contains kv.1 = true) →
      ∃ out, write_csv headers data = .ok out) ∧
    write_csv ["ID", "X"] [[("ID", some "b")]] = .ok [["ID", "X"], ["b", ""]] := by
  refine ⟨?_, ?_, by decide⟩
  · intro headers data r k v hr hkv hcont
    cases hdec : mapME decorateRow data with
    | error e => exact ⟨e, by simp [write_csv, hdec]⟩
    | ok dec =>
      obtain ⟨s, hs⟩ := (mapME_decorate_facts data dec hdec).1 r hr
      have hmem : (s, r) ∈ sortPairs dec := by
        unfold sortPairs
        exact (List.perm_insertionSort keyLE dec).mem_iff.mpr hs
      have herr : dictToList headers r = .error .valueError := by
        unfold dictToList
        rw [if_neg]
        simp only [List.all_eq_true, not_forall]
        exact ⟨(k, v), hkv, by simpa using hcont⟩
      obtain ⟨e', he'⟩ := mapME_error_of_mem (fun p => dictToList headers p.2)
        (sortPairs dec) (s, r) .valueError hmem herr
      exact ⟨e', by simp [write_csv, hdec, he']⟩
  · intro headers data h1 h2
    have hdec : ∃ dec, mapME decorateRow data = .ok dec := by
      apply mapME_ok_of_all
      intro r hr
      obtain ⟨s, hs⟩ := h1 r hr
      exact ⟨(s, r), by simp [decorateRow, rowID, hs]⟩
    obtain ⟨dec, hdec⟩ := hdec
    have hbody : ∃ body, mapME (fun p => dictToList headers p.2) (sortPairs dec) = .ok body := by
      apply mapME_ok_of_all
      intro p hp
      have hpd : p ∈ dec := by
        unfold sortPairs at hp
        exact (List.perm_insertionSort keyLE dec).mem_iff.mp hp
      have hrd : p.2 ∈ data := ((mapME_decorate_facts data dec hdec).2 p hpd).1
      have hall : p.2.all (fun kv => headers.contains kv.1) = true :=
        List.all_eq_true.mpr (fun kv hkv => h2 p.2 hrd kv hkv)
      exact ⟨_, by unfold dictToList; rw [if_pos hall]⟩
    obtain ⟨body, hbody⟩ := hbody
    exact ⟨headers :: body, by simp [write_csv, hdec, hbody]⟩

/-- C3 counterexample: writing a row that lacks the "X" header key succeeds
and emits an empty cell, rather than being an error as the claim states. -/
theorem write_csv_missing_key_not_error :
    write_csv ["ID", "X"] [[("ID", some "a")]] = .ok [["ID", "X"], ["a", ""]] := by
  decide

/-- Witness for C3: a row with the extra key "Z" outside the headers makes
the write fail. -/
theorem write_csv_key_policy_witness :
    ∃ e, write_csv ["ID"] [[("ID", some "a"), ("Z", some "b")]] = .error e :=
  write_csv_key_policy.1 ["ID"] [[("ID", some "a"), ("Z", some "b")]]
    [("ID", some "a"), ("Z", some "b")] "Z" (some "b") (by decide) (by decide) (by decide)

theorem dictGet?_dictUpsert {κ α : Type} [DecidableEq κ] (m : List (κ × α)) (k : κ) (v : α)
    (k' : κ) : dictGet? (dictUpsert m k v) k' = if k = k' then some v else dictGet? m k' := by
  induction m with
  | nil => simp [dictUpsert, dictGet?]
  | cons kv rest ih =>
    obtain ⟨k0, v0⟩ := kv
    by_cases h0 : k0 = k
    · subst h0
      simp only [dictUpsert, if_pos rfl, dictGet?]
      by_cases h1 : k0 = k' <;> simp [h1]
    · simp only [dictUpsert, if_neg h0, dictGet?]
      by_cases h1 : k0 = k'
      · subst h1
        rw [if_pos rfl, if_neg (fun hk => h0 hk.symm), if_pos rfl]
      · rw [if_neg h1, ih, if_neg h1]

theorem tableGet_tablePut (t : ThemeTable) (tn : String) (ks : Option String)
    (rec : ThemeRecord) (tn' : String) (ks' : Option String) :
    tableGet (tablePut t tn ks rec) tn' ks' =
      if tn = tn' ∧ ks = ks' then some rec else tableGet t tn' ks' := by
  unfold tablePut tableGet
  rw [dictGet?_dictUpsert]
  by_cases h1 : tn = tn'
  · subst h1
    rw [if_pos rfl]
    show dictGet? (dictUpsert ((dictGet? t tn).getD []) ks rec) ks' = _
    rw [dictGet?_dictUpsert]
    by_cases h2 : ks = ks'
    · simp [h2]
    · rw [if_neg h2, if_neg (fun h => h2 h.2)]
      cases hget : dictGet? t tn with
      | none => simp [dictGet?]
      | some m => simp
  · rw [if_neg h1, if_neg (fun h => h1 h.1)]

theorem processNode_lookup (pfx : String) (c : FNode) (t0 t1 : ThemeTable)
    (tn : String) (ks : Option String) (h : processNode pfx c t0 = .ok t1) :
    tableGet t1 tn ks =
      if matchKeyB pfx tn ks c then (nodeRecE pfx c).toOption else tableGet t0 tn ks := by
  unfold processNode at h
  cases hp : parse_frame_name pfx c.name with
  | none =>
    rw [hp] at h
    cases h
    simp [matchKeyB, hp]
  | some tkl =>
    obtain ⟨tn', ks', ln⟩ := tkl
    rw [hp] at h
    cases hf : process_fills c.fills with
    | error e => rw [hf] at h; cases h
    | ok fc =>
      rw [hf] at h
      cases hst : process_fills c.strokes with
      | error e => rw [hst] at h; cases h
      | ok sc =>
        rw [hst] at h
        cases h
        rw [tableGet_tablePut]
        simp only [matchKeyB, hp, nodeRecE, hf, hst]
        by_cases hm : tn' = tn ∧ ks' = ks
        · simp [hm.1, hm.2, Except.toOption]
        · rw [if_neg hm, if_neg]
          simp only [decide_eq_true_eq]
          exact hm

theorem lastMatch_append (pfx tn : String) (ks : Option String) (l1 l2 : List FNode) :
    lastMatch pfx tn ks (l1 ++ l2) =
      (match lastMatch pfx tn ks l2 with
       | some c => some c
       | none => lastMatch pfx tn ks l1) := by
  induction l1 with
  | nil =>
    simp only [List.nil_append]
    cases lastMatch pfx tn ks l2 <;> simp [lastMatch]
  | cons c l1 ih =>
    rw [List.cons_append]
    show (match lastMatch pfx tn ks (l1 ++ l2) with
          | some c' => some c'
          | none => if matchKeyB pfx tn ks c then some c else none) = _
    rw [ih]
    cases h2 : lastMatch pfx tn ks l2 with
    | some c' => simp [lastMatch, h2]
    | none =>
      cases h1 : lastMatch pfx tn ks l1 <;> simp [lastMatch, h1, h2]

/-- All nodes visited by one `extract_themes` call, document by document. -/
def visitedDocs : List (List FNode) → List FNode
  | [] => []
  | roots :: rest => visitedList roots ++ visitedDocs rest

theorem traverseList_tableGet (pfx tn : String) (ks : Option String) :
    ∀ (roots : List FNode) (t0 : ThemeTable), ∀ t : ThemeTable,
      traverseList pfx roots t0 = .ok t →
      tableGet t tn ks =
        (match lastMatch pfx tn ks (visitedList roots) with
         | some c => (nodeRecE pfx c).toOption
         | none => tableGet t0 tn ks) := by
  intro roots t0
  induction roots, t0 using traverseList.induct pfx with
  | case1 t0 =>
    intro t h
    simp only [traverseList] at h
    cases h
    simp [visitedList, lastMatch]
  | case2 nm fl st ch rest t0 e hpn =>
    intro t h
    simp only [traverseList, hpn] at h
    exact Except.noConfusion h
  | case3 nm fl st ch rest t0 t1 hpn e htrav ih1 =>
    intro t h
    simp only [traverseList, hpn, htrav] at h
    exact Except.noConfusion h
  | case4 nm fl st ch rest t0 t1 hpn t2 htrav ih1 ih2 =>
    intro t h
    simp only [traverseList, hpn, htrav] at h
    rw [ih2 t h]
    have h1 := ih1 t2 htrav
    have h0 := processNode_lookup pfx (FNode.mk nm fl st ch) t0 t1 tn ks hpn
    have hv : visitedList (FNode.mk nm fl st ch :: rest) =
        FNode.mk nm fl st ch :: (visitedList ch ++ visitedList rest) := by
      simp [visitedList]
    have lmc : lastMatch pfx tn ks (FNode.mk nm fl st ch :: (visitedList ch ++ visitedList rest)) =
        (match lastMatch pfx tn ks (visitedList ch ++ visitedList rest) with
         | some c' => some c'
         | none => if matchKeyB pfx tn ks (FNode.mk nm fl st ch)
            then some (FNode.mk nm fl st ch) else none) := rfl
    rw [hv, lmc, lastMatch_append]
    cases hR : lastMatch pfx tn ks (visitedList rest) with
    | some c => simp
    | none =>
      rw [h1]
      cases hC : lastMatch pfx tn ks (visitedList ch) with
      | some c => simp
      | none =>
        rw [h0]
        by_cases hm : matchKeyB pfx tn ks (FNode.mk nm fl st ch) <;> simp [hm]

theorem docsFold_tableGet (pfx tn : String) (ks : Option String) :
    ∀ (docs : List (List FNode)) (t0 t : ThemeTable), docsFold pfx docs t0 = .ok t →
      tableGet t tn ks =
        (match lastMatch pfx tn ks (visitedDocs docs) with
         | some c => (nodeRecE pfx c).toOption
         | none => tableGet t0 tn ks) := by
  intro docs
  induction docs with
  | nil =>
    intro t0 t h
    cases h
    simp [visitedDocs, lastMatch]
  | cons roots rest ih =>
    intro t0 t h
    cases htr : traverseList pfx roots t0 with
    | error e =>
      simp only [docsFold, htr] at h
      exact Except.noConfusion h
    | ok t1 =>
      simp only [docsFold, htr] at h
      rw [ih t1 t h]
      have h0 := traverseList_tableGet pfx tn ks roots t0 t1 htr
      show _ = (match lastMatch pfx tn ks (visitedList roots ++ visitedDocs rest) with
        | some c => (nodeRecE pfx c).toOption
        | none => tableGet t0 tn ks)
      rw [lastMatch_append]
      cases hR : lastMatch pfx tn ks (visitedDocs rest) with
      | some c => simp
      | none => rw [h0]

/-- C7: after a successful walk, the record stored at any (theme number,
key slot) pair is entirely the record contributed by the last visited node
(document order, parent before children) whose name parses to that pair;
no record exists when no visited node matches. Every field comes from that
one node: no merging takes place. -/
theorem extract_last_write_wins (pfx : String) (docs : List (List FNode)) (t : ThemeTable)
    (tn : String) (ks : Option String) (h : extract_themes pfx docs = .ok t) :
    tableGet t tn ks =
      (match lastMatch pfx tn ks (visitedDocs docs) with
       | some c => (nodeRecE pfx c).toOption
       | none => none) := by
  rw [docsFold_tableGet pfx tn ks docs [] t h]
  cases lastMatch pfx tn ks (visitedDocs docs) <;> simp [tableGet, dictGet?]

/-- Witness for C7: two root-slot nodes both named for theme 3 with
different localized names; the stored record is the second node's record. -/
theorem extract_last_write_wins_witness :
    tableGet [("3", [((none : Option String), ThemeRecord.mk (some "fr") none none none none)])]
      "3" none = some (ThemeRecord.mk (some "fr") none none none none) := by
  have hp1 : parse_frame_name "KBC" "KBC_3-en" = some ("3", none, some "en") := by decide
  have hp2 : parse_frame_name "KBC" "KBC_3-fr" = some ("3", none, some "fr") := by decide
  have hf : process_fills [] = .ok (none, none) := rfl
  have hn1 : processNode "KBC" (FNode.mk "KBC_3-en" [] [] []) [] =
      .ok [("3", [(none, ThemeRecord.mk (some "en") none none none none)])] := by
    simp only [processNode, FNode.name, FNode.fills, FNode.strokes, hp1, hf]
    decide
  have hn2 : processNode "KBC" (FNode.mk "KBC_3-fr" [] [] [])
      [("3", [(none, ThemeRecord.mk (some "en") none none none none)])] =
      .ok [("3", [(none, ThemeRecord.mk (some "fr") none none none none)])] := by
    simp only [processNode, FNode.name, FNode.fills, FNode.strokes, hp2, hf]
    decide
  have htv : traverseList "KBC" [FNode.mk "KBC_3-en" [] [] [], FNode.mk "KBC_3-fr" [] [] []] [] =
      .ok [("3", [(none, ThemeRecord.mk (some "fr") none none none none)])] := by
    simp only [traverseList, hn1, hn2]
  have hex : extract_themes "KBC"
      [[FNode.mk "KBC_3-en" [] [] [], FNode.mk "KBC_3-fr" [] [] []]] =
      .ok [("3", [(none, ThemeRecord.mk (some "fr") none none none none)])] := by
    show docsFold "KBC" [[FNode.mk "KBC_3-en" [] [] [], FNode.mk "KBC_3-fr" [] [] []]] [] = _
    rw [docsFold, htv]
    rfl
  refine (extract_last_write_wins "KBC"
      [[FNode.mk "KBC_3-en" [] [] [], FNode.mk "KBC_3-fr" [] [] []]]
      [("3", [(none, ThemeRecord.mk (some "fr") none none none none)])] "3" none hex).trans ?_
  have hv : visitedDocs [[FNode.mk "KBC_3-en" [] [] [], FNode.mk "KBC_3-fr" [] [] []]] =
      [FNode.mk "KBC_3-en" [] [] [], FNode.mk "KBC_3-fr" [] [] []] := by
    simp [visitedDocs, visitedList]
  rw [hv]
  have hm1 : matchKeyB "KBC" "3" none (FNode.mk "KBC_3-en" [] [] []) = true := by
    simp [matchKeyB, FNode.name, hp1]
  have hm2 : matchKeyB "KBC" "3" none (FNode.mk "KBC_3-fr" [] [] []) = true := by
    simp [matchKeyB, FNode.name, hp2]
  simp only [lastMatch, hm1, hm2, if_true]
  simp [nodeRecE, FNode.name, FNode.fills, FNode.strokes, hp2, hf, Except.toOption]
